import Mathlib

/-!
Verification development for `invoiceClaude.py`.

The Python program is shallowly embedded here:
* strings are modelled as `List Char` (Python operates on code points; the
  claims only exercise ASCII data, and `Char.toLower` models `str.lower`
  on that fragment);
* the value space of a parsed JSON object is modelled by `PyVal`
  (the program's data model only ever holds strings or `None` in the four
  extraction fields, as requested by the fixed prompt);
* a parsed JSON object (the result of `json.loads` on an object literal)
  is an association list `PyDict` with distinct keys; `json.loads` itself
  is library code, so it enters as an explicit function parameter
  `jloads : List Char → Option PyDict` (`none` models a parse failure, i.e.
  a raised `JSONDecodeError`);
* the external `claude` subprocess is an oracle scripted by a list of
  `OracleOutcome`s, consumed one per invocation; `subprocess.run` with
  `timeout=30` raises `TimeoutExpired` on a timeout, modelled by
  `PyErr.timeoutExpired` (the exception is *not* caught by the code under
  scrutiny); a completed process yields a return code (which the source
  never inspects) and captured stdout;
* raised Python exceptions are `Except PyErr` errors; `PyErr.scriptEnded`
  is an artifact of the scripted-oracle model (the script ran out) and is
  never produced in any theorem's hypotheses;
* the CSV file is the list of its rows (`List (List String)`); opening with
  mode "w" plus a header write is `initCsv`, each per-document append is
  `csv ++ [row]`.
* Python `set` objects are modelled by first-encounter-order duplicate-free
  lists; every property proved about them (membership, size) is invariant
  under reordering, so nothing proved here depends on the arbitrary
  iteration order of a real Python set.
-/

set_option linter.unusedVariables false

deriving instance DecidableEq for Except

namespace Invoice

/-- A Python value stored in an extraction field: `None` or a string. -/
inductive PyVal where
  | none
  | str (s : String)
deriving DecidableEq

/-- A parsed JSON object: association list from keys to values (distinct keys). -/
abbrev PyDict := List (String × PyVal)

/-- The Python exceptions the embedded code can raise. -/
inductive PyErr where
  | timeoutExpired
  | keyError (key : String)
  | scriptEnded
deriving DecidableEq

/-- One scripted outcome of a `subprocess.run` invocation of the oracle. -/
inductive OracleOutcome where
  | timeout
  | completed (returncode : Int) (stdout : List Char)
deriving DecidableEq

def isCompleted : OracleOutcome → Bool
  | .timeout => false
  | .completed _ _ => true

def stdoutOf : OracleOutcome → List Char
  | .timeout => []
  | .completed _ out => out

/-- Python truthiness of a field value: `None` and `""` are falsy. -/
def truthy : PyVal → Bool
  | .none => false
  | .str s => !s.isEmpty

/-! ### Character / string primitives (Python `str` operations) -/

def braceL : Char := Char.ofNat 123
def braceR : Char := Char.ofNat 125
def btick : Char := Char.ofNat 96
def squote : Char := Char.ofNat 39

def strL (s : String) : List Char := s.data

/-- Python `str.strip()` whitespace test (ASCII fragment). -/
def isPySpace (c : Char) : Bool :=
  c == ' ' || c == '\t' || c == '\n' || c == '\r' || c == Char.ofNat 11 || c == Char.ofNat 12

def lowerL (l : List Char) : List Char := l.map Char.toLower

/-- `hay.startswith(pre)` on character lists. -/
def startsWithL : List Char → List Char → Bool
  | _, [] => true
  | [], _ :: _ => false
  | a :: as, b :: bs => a == b && startsWithL as bs

/-- Python substring test `needle in hay`. -/
def containsSub : List Char → List Char → Bool
  | [], needle => needle.isEmpty
  | c :: t, needle => startsWithL (c :: t) needle || containsSub t needle

/-- Does `c` occur in `l` (Python `c in s` for a single character)? -/
def hasChar (l : List Char) (c : Char) : Bool :=
  match l with
  | [] => false
  | x :: t => x == c || hasChar t c

/-- Drop trailing whitespace (the right half of `str.strip()`). -/
def dropTrailing (l : List Char) : List Char :=
  match l with
  | [] => []
  | c :: t =>
    let r := dropTrailing t
    if r.isEmpty && isPySpace c then [] else c :: r

/-- Python `str.strip()`. -/
def pyStrip (l : List Char) : List Char := dropTrailing (l.dropWhile isPySpace)

/-- Python `s.split('\n')` (no collapsing; `"".split('\n') == [""]`). -/
def splitOnNl : List Char → List (List Char)
  | [] => [[]]
  | c :: t =>
    let r := splitOnNl t
    if c == '\n' then [] :: r
    else
      match r with
      | [] => [[c]]
      | h :: rt => (c :: h) :: rt

/-- Python `'\n'.join(ls)`. -/
def joinNl : List (List Char) → List Char
  | [] => []
  | [x] => x
  | x :: y :: t => x ++ '\n' :: joinNl (y :: t)

/-- Python `s.find(c)`: index of the first occurrence, `-1` if absent. -/
def pyFind (l : List Char) (c : Char) : Int :=
  match l with
  | [] => -1
  | x :: t => if x == c then 0 else (if pyFind t c = -1 then -1 else pyFind t c + 1)

/-- Python `s.rfind(c)`: index of the last occurrence, `-1` if absent. -/
def pyRfind (l : List Char) (c : Char) : Int :=
  match l with
  | [] => -1
  | x :: t => if pyRfind t c ≠ -1 then pyRfind t c + 1 else (if x == c then 0 else -1)

/-! ### Response normalizer (`parse_invoice_with_claude`, lines 31-60) -/

/-- The literal three-backtick code fence marker. -/
def fenceMark : List Char := [btick, btick, btick]

/-- Lines 32-37: strip the raw stdout and remove a leading markdown code
fence (drop the first line; drop the last line too when it is exactly the
closing fence). -/
def normResponse (raw : List Char) : List Char :=
  let resp := pyStrip raw
  if startsWithL resp fenceMark then
    let lines := splitOnNl resp
    if lines.getLast? = some fenceMark then joinNl ((lines.drop 1).dropLast)
    else joinNl (lines.drop 1)
  else resp

/-- Lines 40-43: `json_start = response.find('{')`,
`json_end = response.rfind('}') + 1`; the span `response[json_start:json_end]`
is produced only when `json_start != -1 and json_end > json_start`. -/
def jsonSpan (raw : List Char) : Option (List Char) :=
  let resp := normResponse raw
  let json_start := pyFind resp braceL
  let json_end := pyRfind resp braceR + 1
  if json_start ≠ -1 ∧ json_end > json_start then
    some ((resp.drop json_start.toNat).take (json_end - json_start).toNat)
  else
    Option.none

/-- Lines 55-60: the all-null fallback record. -/
def nullRecord : PyDict :=
  [("date", PyVal.none), ("tail_number", PyVal.none),
   ("event_type", PyVal.none), ("component_description", PyVal.none)]

/-- Lines 31-60 of `parse_invoice_with_claude`, applied to the captured
stdout: on a successful parse the *raw* parsed dict is returned (the source
performs no field extraction on success); a failed parse
(`JSONDecodeError`, caught at line 50) or an absent span falls through to
the all-null record. -/
def parse_invoice_with_claude (jloads : List Char → Option PyDict) (stdout : List Char) : PyDict :=
  match jsonSpan stdout with
  | some s =>
    match jloads s with
    | some parsed => parsed
    | Option.none => nullRecord
  | Option.none => nullRecord

/-! ### Reason classifier (`determine_reason_for_removal`, lines 62-78) -/

/-- Python `(x or "")` for an optional string. -/
def pyOrEmptyChars (v : PyVal) : List Char :=
  match v with
  | .none => []
  | .str s => s.data

def determine_reason_for_removal (event_type component : PyVal) : String :=
  let component_lower := lowerL (pyOrEmptyChars component)
  let event_lower := lowerL (pyOrEmptyChars event_type)
  if containsSub component_lower (strL "oil filter") then "Scheduled"
  else if containsSub component_lower (strL "air filter") then
    (if containsSub event_lower (strL "replacement") then "Failure"
     else if containsSub event_lower (strL "service") || containsSub event_lower (strL "inspection") then "Scheduled"
     else "Failure")
  else if containsSub event_lower (strL "inspection") || containsSub event_lower (strL "annual") || containsSub event_lower (strL "service") then "Scheduled"
  else "Failure"

/-! ### Reconciliation and sink (`process_invoices`, lines 80-163) -/

/-- `r[k]` on a parsed dict: raises `KeyError` when the key is absent. -/
def dictLookup (d : PyDict) (k : String) : Except PyErr PyVal :=
  match d.find? (fun kv => kv.1 == k) with
  | some kv => .ok kv.2
  | Option.none => .error (.keyError k)

/-- `r.get(k)` on a parsed dict: `None` when the key is absent. -/
def dictGet (d : PyDict) (k : String) : PyVal :=
  match d.find? (fun kv => kv.1 == k) with
  | some kv => kv.2
  | Option.none => PyVal.none

def hasKey (d : PyDict) (k : String) : Bool := (d.find? (fun kv => kv.1 == k)).isSome

/-- The dict carries all four extraction keys (true of `nullRecord` and of
every object the fixed prompt asks the oracle to emit). -/
def hasAllKeys (d : PyDict) : Bool :=
  hasKey d "date" && hasKey d "tail_number" && hasKey d "event_type" && hasKey d "component_description"

/-- Adding one value to a Python `set`, modelled as a duplicate-free list in
first-encounter order. -/
def insertDistinct (acc : List PyVal) (v : PyVal) : List PyVal :=
  if acc.contains v then acc else acc ++ [v]

/-- Lines 107-110: `set(r[k] for r in runs if r[k])`.  Walks the runs in
order; `r[k]` raises `KeyError` on a dict missing the key (the truthiness
filter is applied to the looked-up value). -/
def fieldValues (k : String) : List PyDict → List PyVal → Except PyErr (List PyVal)
  | [], acc => .ok acc
  | r :: rs, acc =>
    match dictLookup r k with
    | .error e => .error e
    | .ok v => fieldValues k rs (if truthy v then insertDistinct acc v else acc)

/-- Total variant of `fieldValues` via `dictGet`; agrees with `fieldValues`
on dicts that carry the key (see `fieldValues_eq_ok`). -/
def fieldValuesD (k : String) : List PyDict → List PyVal → List PyVal
  | [], acc => acc
  | r :: rs, acc =>
    fieldValuesD k rs (if truthy (dictGet r k) then insertDistinct acc (dictGet r k) else acc)

/-- Lines 114-117: `list(s)[0] if s else None`. -/
def headOrNone : List PyVal → PyVal
  | [] => PyVal.none
  | v :: _ => v

/-- Lines 137-140: `value or ""` when writing a row. -/
def orEmptyS : PyVal → String
  | PyVal.none => ""
  | PyVal.str s => s

/-- Python `repr` of a field value (ASCII fragment: a string renders inside
single quotes; escaping of embedded quotes is not modelled). -/
def pyValRepr : PyVal → String
  | PyVal.none => "None"
  | PyVal.str s => String.mk (squote :: (s.data ++ [squote]))

/-- Python `str(list(s))` as interpolated by the f-strings at lines 126-132. -/
def pyListRepr (vs : List PyVal) : String :=
  "[" ++ String.intercalate ", " (vs.map pyValRepr) ++ "]"

/-- Lines 124-132: one `(label, distinct-value set)` entry per field whose
set has more than one element, in the source's fixed field order. -/
def conflictEntries (ds ts es cs : List PyVal) : List (String × List PyVal) :=
  (if 1 < ds.length then [("Dates", ds)] else []) ++
  (if 1 < ts.length then [("Tails", ts)] else []) ++
  (if 1 < es.length then [("Events", es)] else []) ++
  (if 1 < cs.length then [("Components", cs)] else [])

/-- Line 133: `"; ".join(conflicts)` over the f-string renderings. -/
def conflictDetailsStr (ds ts es cs : List PyVal) : String :=
  String.intercalate "; " ((conflictEntries ds ts es cs).map (fun e => e.1 ++ ": " ++ pyListRepr e.2))

/-- Line 136: `file_name[:30]`. -/
def take30 (s : String) : String := String.mk (s.data.take 30)

/-- Lines 112-144: the finalized output row for one document, from the four
distinct-value sets. -/
def mkRow (fileName : String) (ds ts es cs : List PyVal) : List String :=
  let has_conflict :=
    decide (1 < ds.length) || decide (1 < ts.length) || decide (1 < es.length) || decide (1 < cs.length)
  let final_date := headOrNone ds
  let final_tail := headOrNone ts
  let final_event := headOrNone es
  let final_component := headOrNone cs
  let reason := determine_reason_for_removal final_event final_component
  [take30 fileName, orEmptyS final_date, orEmptyS final_tail, orEmptyS final_event,
   orEmptyS final_component, reason,
   (if has_conflict then "CONFLICT" else ""),
   (if has_conflict then conflictDetailsStr ds ts es cs else "")]

/-- One `subprocess.run(cmd, ..., timeout=30)` against the scripted oracle:
a timeout raises `TimeoutExpired`; a completed process yields
`(returncode, stdout)` and the rest of the script. -/
def runSubprocess : List OracleOutcome → Except PyErr ((Int × List Char) × List OracleOutcome)
  | [] => .error .scriptEnded
  | OracleOutcome.timeout :: _ => .error .timeoutExpired
  | OracleOutcome.completed rc out :: rest => .ok ((rc, out), rest)

/-- Lines 100-105: `for i in range(1, NUM_ATTEMPTS + 1): runs.append(parse_invoice_with_claude(...))`.
Each iteration makes one oracle invocation (line 25) and normalizes its
stdout; an uncaught `TimeoutExpired` aborts the loop. -/
def attemptLoop (jloads : List Char → Option PyDict) :
    Nat → List OracleOutcome → Except PyErr (List PyDict × List OracleOutcome)
  | 0, script => .ok ([], script)
  | n + 1, script =>
    match runSubprocess script with
    | .error e => .error e
    | .ok (res, script1) =>
      let parsed := parse_invoice_with_claude jloads res.2
      match attemptLoop jloads n script1 with
      | .error e => .error e
      | .ok (rest, script2) => .ok (parsed :: rest, script2)

/-- Lines 96-149, body of the per-document loop: run the attempts, build the
four distinct-value sets, and produce the CSV row. -/
def processDocument (jloads : List Char → Option PyDict) (numAttempts : Nat)
    (fileName : String) (script : List OracleOutcome) :
    Except PyErr (List String × List OracleOutcome) :=
  match attemptLoop jloads numAttempts script with
  | .error e => .error e
  | .ok (runs, script') =>
    match fieldValues "date" runs [] with
    | .error e => .error e
    | .ok ds =>
      match fieldValues "tail_number" runs [] with
      | .error e => .error e
      | .ok ts =>
        match fieldValues "event_type" runs [] with
        | .error e => .error e
        | .ok es =>
          match fieldValues "component_description" runs [] with
          | .error e => .error e
          | .ok cs => .ok (mkRow fileName ds ts es cs, script')

/-- The row a document contributes when all of its attempts complete: the
normalized records of the scripted stdouts, reconciled through the total
set-builder. -/
def docRowOf (jloads : List Char → Option PyDict) (fileName : String)
    (b : List OracleOutcome) : List String :=
  let runs := b.map (fun o => parse_invoice_with_claude jloads (stdoutOf o))
  mkRow fileName (fieldValuesD "date" runs []) (fieldValuesD "tail_number" runs [])
    (fieldValuesD "event_type" runs []) (fieldValuesD "component_description" runs [])

/-- Line 86: the header row. -/
def headers : List String :=
  ["Filename", "Date", "Tail_Number", "Event_Type", "Component_Description",
   "Reason_for_Removal", "Conflict_Flag", "Conflict_Details"]

/-- Line 84. -/
def NUM_ATTEMPTS : Nat := 1

/-- Lines 89-91: open `invoice_analysis.csv` with mode "w" (discarding any
previous contents) and write the header row. -/
def initCsv (_old : List (List String)) : List (List String) := [headers]

/-- Lexicographic code-point order on strings, as used by Python `sorted`. -/
def lexLe : List Char → List Char → Bool
  | [], _ => true
  | _ :: _, [] => false
  | a :: as, b :: bs => if a == b then lexLe as bs else decide (a < b)

def insertSorted (x : String) : List String → List String
  | [] => [x]
  | y :: t => if lexLe (strL x) (strL y) then x :: y :: t else y :: insertSorted x t

/-- Python `sorted` on filenames (insertion sort; stability is irrelevant to
the claims, which never compare equal filenames). -/
def sortFiles (l : List String) : List String := l.foldr insertSorted []

/-- `hay.endswith(suf)` on character lists. -/
def endsWithL (l suf : List Char) : Bool := startsWithL l.reverse suf.reverse

/-- Line 82: `f.endswith(('.pdf', '.txt'))`. -/
def isInvoiceFile (f : String) : Bool :=
  endsWithL (strL f) (strL ".pdf") || endsWithL (strL f) (strL ".txt")

/-- Line 82: filter the directory listing and sort it. -/
def discoverFiles (listing : List String) : List String := sortFiles (listing.filter isInvoiceFile)

/-- Lines 96-149: the document loop.  Each finished document appends exactly
one row to the CSV (lines 146-149, an open-append-close per document); an
uncaught exception stops the batch, leaving the rows already appended. -/
def batchGo (jloads : List Char → Option PyDict) (numAttempts : Nat) :
    List String → List (List String) → List OracleOutcome →
    List (List String) × Option PyErr
  | [], csv, _ => (csv, Option.none)
  | f :: fs, csv, script =>
    match processDocument jloads numAttempts f script with
    | .ok (row, script') => batchGo jloads numAttempts fs (csv ++ [row]) script'
    | .error e => (csv, some e)

/-- `process_invoices()` (lines 80-163): discover the files, initialize the
CSV, and run the document loop against the scripted oracle. -/
def process_invoices (jloads : List Char → Option PyDict) (numAttempts : Nat)
    (listing : List String) (old : List (List String)) (script : List OracleOutcome) :
    List (List String) × Option PyErr :=
  batchGo jloads numAttempts (discoverFiles listing) (initCsv old) script

/-! ### Debug mode (`__main__` branch, lines 168-247) -/

/-- Line 231. -/
def debugHeaders : List String :=
  ["Filename", "Date", "Tail_Number", "Event_Type", "Component_Description", "Reason_for_Removal"]

/-- `parsed.get(k) or ""` (lines 234-237). -/
def getOrEmpty (d : PyDict) (k : String) : String := orEmptyS (dictGet d k)

/-- What the debug branch produces: the parsed record echoed to the console
(lines 221-224), the printed classification (line 228), and the contents of
`singleFile.csv` (lines 241-244). -/
structure DebugOut where
  printedParsed : PyDict
  printedReason : String
  csv : List (List String)
deriving DecidableEq

/-- The `--debug` branch (lines 168-247): a raw-display `claude` invocation
(lines 210-211) whose stdout is only printed, then
`parse_invoice_with_claude` (line 219) performing its own invocation
(line 25); classification via `parsed.get` (line 227); `singleFile.csv`
written with mode "w" as a header plus one six-column row. -/
def debug_main (jloads : List Char → Option PyDict) (script : List OracleOutcome)
    (debugFile : String) : Except PyErr (DebugOut × List OracleOutcome) :=
  match runSubprocess script with
  | .error e => .error e
  | .ok (_, rest1) =>
    match runSubprocess rest1 with
    | .error e => .error e
    | .ok (res, rest2) =>
      let parsed := parse_invoice_with_claude jloads res.2
      let reason := determine_reason_for_removal (dictGet parsed "event_type")
        (dictGet parsed "component_description")
      let row := [debugFile, getOrEmpty parsed "date", getOrEmpty parsed "tail_number",
                  getOrEmpty parsed "event_type", getOrEmpty parsed "component_description", reason]
      .ok ({ printedParsed := parsed, printedReason := reason, csv := [debugHeaders, row] }, rest2)

/-- Number of oracle invocations a successful debug run consumes from the
script. -/
def debugUsed (jloads : List Char → Option PyDict) (script : List OracleOutcome)
    (debugFile : String) : Option Nat :=
  match debug_main jloads script debugFile with
  | .ok (_, rest) => some (script.length - rest.length)
  | .error _ => Option.none

/-! ### The spec's data model, for stating reconciliation claims -/

/-- The spec's `ExtractionRecord`: four independently nullable fields. -/
structure ExtractionRecord where
  date : PyVal
  tail_number : PyVal
  event_type : PyVal
  component_description : PyVal
deriving DecidableEq

/-- An `ExtractionRecord` as the parsed dict it denotes. -/
def toDict (r : ExtractionRecord) : PyDict :=
  [("date", r.date), ("tail_number", r.tail_number),
   ("event_type", r.event_type), ("component_description", r.component_description)]

def nullExtraction : ExtractionRecord :=
  ⟨PyVal.none, PyVal.none, PyVal.none, PyVal.none⟩

/-- The reconciliation outputs of lines 107-133 for one document. -/
structure ReconciliationResult where
  final_date : PyVal
  final_tail : PyVal
  final_event : PyVal
  final_component : PyVal
  has_conflict : Bool
  conflict_fields : List String
deriving DecidableEq

/-- Lines 107-133 applied to a list of well-formed attempt records (every
attempt dict carries the four keys, so the `KeyError`-free total
set-builder coincides with the source's lookups; see `fieldValues_eq_ok`). -/
def reconcile (runs : List ExtractionRecord) : ReconciliationResult :=
  let ds := fieldValuesD "date" (runs.map toDict) []
  let ts := fieldValuesD "tail_number" (runs.map toDict) []
  let es := fieldValuesD "event_type" (runs.map toDict) []
  let cs := fieldValuesD "component_description" (runs.map toDict) []
  { final_date := headOrNone ds
    final_tail := headOrNone ts
    final_event := headOrNone es
    final_component := headOrNone cs
    has_conflict :=
      decide (1 < ds.length) || decide (1 < ts.length) || decide (1 < es.length) || decide (1 < cs.length)
    conflict_fields := (conflictEntries ds ts es cs).map Prod.fst }

/-- Two attempts hold distinct truthy values for the field read by `f`. -/
def fieldDisagrees (f : ExtractionRecord → PyVal) (runs : List ExtractionRecord) : Prop :=
  ∃ r1 ∈ runs, ∃ r2 ∈ runs, truthy (f r1) = true ∧ truthy (f r2) = true ∧ f r1 ≠ f r2

/-- Occurrence of an open brace strictly before some close brace; exactly
the condition under which the span guard of lines 42 can pass. -/
def afterBrace : List Char → Bool
  | [] => false
  | c :: t => (c == braceL && hasChar t braceR) || afterBrace t

/-- Concatenation of per-document blocks of scripted outcomes. -/
def concatBlocks : List (List OracleOutcome) → List OracleOutcome
  | [] => []
  | b :: bs => b ++ concatBlocks bs

/-! ### Concrete instances used by counterexamples and witnesses -/

/-- A parser that always fails (models `json.loads` on any non-JSON text). -/
def jlNone : List Char → Option PyDict := fun _ => Option.none

/-- The stdout text `{"date": "01/02/2024"}`: a syntactically valid JSON
object that omits three of the four requested fields. -/
def rawC3 : List Char := strL "\x7b\x22date\x22: \x2201/02/2024\x22\x7d"

/-- `json.loads` modelled at `rawC3` (and failing elsewhere): the real
parser maps that text to the one-key object. -/
def jlC3 : List Char → Option PyDict :=
  fun s => if s = rawC3 then some [("date", PyVal.str "01/02/2024")] else Option.none

/-! ## Helper lemmas: brace positions and the normalizer's span guard -/

lemma hasChar_eq_false_iff (l : List Char) (c : Char) :
    hasChar l c = false ↔ ∀ x ∈ l, x ≠ c := by
  induction l with
  | nil => simp [hasChar]
  | cons a t ih => simp [hasChar, ih]

lemma hasChar_false_of_sublist {l1 l2 : List Char} (h : List.Sublist l1 l2) (c : Char)
    (h2 : hasChar l2 c = false) : hasChar l1 c = false :=
  (hasChar_eq_false_iff l1 c).2 fun x hx => (hasChar_eq_false_iff l2 c).1 h2 x (h.subset hx)

lemma afterBrace_false_of_no_close (l : List Char) (h : hasChar l braceR = false) :
    afterBrace l = false := by
  induction l with
  | nil => rfl
  | cons a t ih =>
    simp only [hasChar, Bool.or_eq_false_iff] at h
    simp [afterBrace, h.2, ih h.2]

lemma afterBrace_false_of_sublist {l1 l2 : List Char} (h : List.Sublist l1 l2)
    (h2 : afterBrace l2 = false) : afterBrace l1 = false := by
  induction h with
  | slnil => exact h2
  | cons a h ih =>
    simp only [afterBrace, Bool.or_eq_false_iff] at h2
    exact ih h2.2
  | cons₂ a h ih =>
    simp only [afterBrace, Bool.or_eq_false_iff, Bool.and_eq_false_iff] at h2 ⊢
    refine ⟨?_, ih h2.2⟩
    rcases h2.1 with hL | hR
    · exact Or.inl hL
    · exact Or.inr (hasChar_false_of_sublist h _ hR)

lemma pyFind_eq_neg_one (l : List Char) (c : Char) (h : hasChar l c = false) :
    pyFind l c = -1 := by
  induction l with
  | nil => rfl
  | cons a t ih =>
    simp only [hasChar, Bool.or_eq_false_iff] at h
    simp [pyFind, h.1, ih h.2]

lemma pyFind_nonneg (l : List Char) (c : Char) (h : pyFind l c ≠ -1) : 0 ≤ pyFind l c := by
  induction l with
  | nil => exact absurd rfl h
  | cons a t ih =>
    by_cases ha : (a == c) = true
    · have h0 : pyFind (a :: t) c = 0 := by simp [pyFind, ha]
      omega
    · by_cases ht : pyFind t c = -1
      · exfalso
        apply h
        simp [pyFind, ha, ht]
      · have h1 : pyFind (a :: t) c = pyFind t c + 1 := by simp [pyFind, ha, ht]
        have := ih ht
        omega

lemma pyRfind_ge_neg_one (l : List Char) (c : Char) : -1 ≤ pyRfind l c := by
  induction l with
  | nil =>
    have h : pyRfind [] c = -1 := rfl
    omega
  | cons a t ih =>
    by_cases ht : pyRfind t c = -1
    · by_cases ha : (a == c) = true
      · have h1 : pyRfind (a :: t) c = 0 := by simp [pyRfind, ht, ha]
        omega
      · have h1 : pyRfind (a :: t) c = -1 := by simp [pyRfind, ht, ha]
        omega
    · have h1 : pyRfind (a :: t) c = pyRfind t c + 1 := by simp [pyRfind, ht]
      omega

lemma pyRfind_eq_neg_one_iff (l : List Char) (c : Char) :
    pyRfind l c = -1 ↔ hasChar l c = false := by
  induction l with
  | nil =>
    have h1 : pyRfind [] c = -1 := rfl
    have h2 : hasChar [] c = false := rfl
    rw [h1, h2]
    simp
  | cons a t ih =>
    by_cases ht : pyRfind t c = -1
    · have hch : hasChar t c = false := ih.1 ht
      by_cases ha : (a == c) = true
      · have h1 : pyRfind (a :: t) c = 0 := by simp [pyRfind, ht, ha]
        have h2 : hasChar (a :: t) c = true := by simp [hasChar, ha]
        rw [h1, h2]
        decide
      · have h1 : pyRfind (a :: t) c = -1 := by simp [pyRfind, ht, ha]
        have h2 : hasChar (a :: t) c = false := by simp [hasChar, ha, hch]
        rw [h1, h2]
        simp
    · have h1 : pyRfind (a :: t) c = pyRfind t c + 1 := by simp [pyRfind, ht]
      have hch : hasChar t c = true := by
        rcases Bool.eq_false_or_eq_true (hasChar t c) with hc | hc
        · exact hc
        · exact absurd (ih.2 hc) ht
      have h2 : hasChar (a :: t) c = true := by simp [hasChar, hch]
      rw [h1, h2]
      have hge := pyRfind_ge_neg_one t c
      constructor
      · intro h
        exfalso
        omega
      · intro h
        exact absurd h (by decide)

lemma afterBrace_false_of_last_close_le_first_open (l : List Char)
    (h1 : pyFind l braceL ≠ -1) (h2 : pyRfind l braceR ≤ pyFind l braceL) :
    afterBrace l = false := by
  induction l with
  | nil => exact absurd rfl h1
  | cons a t ih =>
    by_cases ha : (a == braceL) = true
    · have hfind : pyFind (a :: t) braceL = 0 := by simp [pyFind, ha]
      rw [hfind] at h2
      by_cases hrt : pyRfind t braceR = -1
      · have hch : hasChar t braceR = false := (pyRfind_eq_neg_one_iff t braceR).1 hrt
        simp [afterBrace, hch, afterBrace_false_of_no_close t hch]
      · exfalso
        have haR : (a == braceR) = false := by
          have : a = braceL := by simpa using ha
          subst this
          decide
        have : pyRfind (a :: t) braceR = pyRfind t braceR + 1 := by
          simp [pyRfind, hrt]
        rw [this] at h2
        have := pyRfind_ge_neg_one t braceR
        omega
    · have hft : pyFind t braceL ≠ -1 := by
        intro hc
        apply h1
        simp [pyFind, ha, hc]
      have hfind : pyFind (a :: t) braceL = pyFind t braceL + 1 := by
        simp [pyFind, ha, hft]
      rw [hfind] at h2
      have hrec : afterBrace t = false := by
        apply ih hft
        by_cases hrt : pyRfind t braceR = -1
        · have := pyFind_nonneg t braceL hft
          omega
        · have : pyRfind (a :: t) braceR = pyRfind t braceR + 1 := by
            simp [pyRfind, hrt]
          omega
      simp [afterBrace, ha, hrec]

lemma rfind_lt_find_of_afterBrace_false (l : List Char) (h : afterBrace l = false)
    (h1 : pyFind l braceL ≠ -1) : pyRfind l braceR + 1 ≤ pyFind l braceL := by
  induction l with
  | nil => exact absurd rfl h1
  | cons a t ih =>
    simp only [afterBrace, Bool.or_eq_false_iff, Bool.and_eq_false_iff] at h
    by_cases ha : (a == braceL) = true
    · have hch : hasChar t braceR = false := by
        rcases h.1 with hL | hR
        · rw [ha] at hL; cases hL
        · exact hR
      have hrt : pyRfind t braceR = -1 := (pyRfind_eq_neg_one_iff t braceR).2 hch
      have haR : (a == braceR) = false := by
        have : a = braceL := by simpa using ha
        subst this
        decide
      have : pyRfind (a :: t) braceR = -1 := by
        simp [pyRfind, hrt, haR]
      rw [this]
      simp [pyFind, ha]
    · have hft : pyFind t braceL ≠ -1 := by
        intro hc
        apply h1
        simp [pyFind, ha, hc]
      have hfind : pyFind (a :: t) braceL = pyFind t braceL + 1 := by
        simp [pyFind, ha, hft]
      have hrec := ih h.2 hft
      rw [hfind]
      by_cases hrt : pyRfind t braceR = -1
      · have hv : pyRfind (a :: t) braceR = if (a == braceR) = true then 0 else -1 := by
          simp [pyRfind, hrt]
        have := pyFind_nonneg t braceL hft
        by_cases haR : (a == braceR) = true <;> simp [haR] at hv <;> omega
      · have : pyRfind (a :: t) braceR = pyRfind t braceR + 1 := by
          simp [pyRfind, hrt]
        omega

lemma jsonSpan_eq_none_of_afterBrace (raw : List Char)
    (h : afterBrace (normResponse raw) = false) : jsonSpan raw = Option.none := by
  simp only [jsonSpan]
  rw [if_neg]
  rintro ⟨h1, h2⟩
  have := rfind_lt_find_of_afterBrace_false (normResponse raw) h h1
  omega

lemma parse_eq_null_of_span_none (raw : List Char) (jloads : List Char → Option PyDict)
    (h : jsonSpan raw = Option.none) : parse_invoice_with_claude jloads raw = nullRecord := by
  simp [parse_invoice_with_claude, h]

/-! ## Helper lemmas: the normalized response is a sublist of the raw text -/

lemma dropTrailing_sublist (l : List Char) : List.Sublist (dropTrailing l) l := by
  induction l with
  | nil => exact List.Sublist.refl []
  | cons a t ih =>
    simp only [dropTrailing]
    split
    · exact List.nil_sublist _
    · exact List.Sublist.cons₂ a ih

lemma pyStrip_sublist (l : List Char) : List.Sublist (pyStrip l) l :=
  (dropTrailing_sublist _).trans (List.dropWhile_sublist _)

lemma splitOnNl_ne_nil (l : List Char) : splitOnNl l ≠ [] := by
  cases l with
  | nil => simp [splitOnNl]
  | cons c t =>
    simp only [splitOnNl]
    split
    · simp
    · split <;> simp

lemma joinNl_splitOnNl (l : List Char) : joinNl (splitOnNl l) = l := by
  induction l with
  | nil => rfl
  | cons c t ih =>
    simp only [splitOnNl]
    by_cases hc : (c == '\n') = true
    · rw [if_pos hc]
      obtain ⟨h, rt, hr⟩ := List.exists_cons_of_ne_nil (splitOnNl_ne_nil t)
      rw [hr]
      rw [hr] at ih
      have hcn : c = '\n' := by simpa using hc
      simp only [joinNl, List.nil_append]
      rw [ih, hcn]
    · rw [if_neg hc]
      obtain ⟨h, rt, hr⟩ := List.exists_cons_of_ne_nil (splitOnNl_ne_nil t)
      rw [hr]
      rw [hr] at ih
      cases rt with
      | nil => simpa [joinNl] using congrArg (c :: ·) ih
      | cons h2 rt2 => simpa [joinNl] using congrArg (c :: ·) ih

lemma joinNl_drop_one_sublist (xs : List (List Char)) : List.Sublist (joinNl (xs.drop 1)) (joinNl xs) := by
  match xs with
  | [] => exact List.Sublist.refl _
  | [x] => exact List.nil_sublist _
  | x :: y :: t =>
    show List.Sublist (joinNl (y :: t)) (x ++ '\n' :: joinNl (y :: t))
    have : x ++ '\n' :: joinNl (y :: t) = (x ++ ['\n']) ++ joinNl (y :: t) := by simp
    rw [this]
    exact List.sublist_append_right _ _

lemma joinNl_dropLast_sublist : ∀ xs : List (List Char), List.Sublist (joinNl xs.dropLast) (joinNl xs)
  | [] => List.Sublist.refl _
  | [x] => List.nil_sublist _
  | x :: y :: t => by
    rw [List.dropLast_cons₂]
    cases t with
    | nil =>
      show List.Sublist (joinNl [x]) (joinNl [x, y])
      show List.Sublist x (x ++ '\n' :: y)
      exact List.sublist_append_left x ('\n' :: y)
    | cons z t2 =>
      have ih := joinNl_dropLast_sublist (y :: z :: t2)
      obtain ⟨h, rt, hr⟩ := List.exists_cons_of_ne_nil (l := (y :: z :: t2).dropLast) (by simp)
      show List.Sublist (joinNl (x :: (y :: z :: t2).dropLast)) (joinNl (x :: y :: z :: t2))
      rw [hr]
      rw [hr] at ih
      show List.Sublist (x ++ '\n' :: joinNl (h :: rt)) (x ++ '\n' :: joinNl (y :: z :: t2))
      exact (List.Sublist.cons₂ '\n' ih).append_left x

lemma normResponse_sublist (raw : List Char) : List.Sublist (normResponse raw) raw := by
  have hstrip : List.Sublist (pyStrip raw) raw := pyStrip_sublist raw
  have hsplit : joinNl (splitOnNl (pyStrip raw)) = pyStrip raw := joinNl_splitOnNl (pyStrip raw)
  simp only [normResponse]
  split
  · split
    · refine ((joinNl_dropLast_sublist _).trans ((joinNl_drop_one_sublist _).trans ?_))
      rw [hsplit]
      exact hstrip
    · refine (joinNl_drop_one_sublist _).trans ?_
      rw [hsplit]
      exact hstrip
  · exact hstrip

lemma jsonSpan_eq_none_of_missing_brace (raw : List Char)
    (h : hasChar raw braceL = false ∨ hasChar raw braceR = false) :
    jsonSpan raw = Option.none := by
  have hsub := normResponse_sublist raw
  simp only [jsonSpan]
  rw [if_neg]
  rintro ⟨h1, h2⟩
  rcases h with h | h
  · exact h1 (pyFind_eq_neg_one _ _ (hasChar_false_of_sublist hsub _ h))
  · have hr : pyRfind (normResponse raw) braceR = -1 :=
      (pyRfind_eq_neg_one_iff _ _).2 (hasChar_false_of_sublist hsub _ h)
    rw [hr] at h2
    have := pyFind_nonneg _ _ h1
    omega

/-! ## Helper lemmas: the distinct-value sets of the reconciler -/

lemma contains_true_iff (l : List PyVal) (v : PyVal) : (l.contains v = true) ↔ v ∈ l :=
  List.elem_iff

lemma mem_insertDistinct (acc : List PyVal) (w v : PyVal) :
    v ∈ insertDistinct acc w ↔ v ∈ acc ∨ v = w := by
  unfold insertDistinct
  by_cases h : acc.contains w = true
  · rw [if_pos h]
    constructor
    · exact Or.inl
    · rintro (hv | rfl)
      · exact hv
      · exact (contains_true_iff acc v).1 h
  · rw [if_neg h]
    simp

lemma nodup_insertDistinct (acc : List PyVal) (w : PyVal) (h : acc.Nodup) :
    (insertDistinct acc w).Nodup := by
  unfold insertDistinct
  by_cases hc : acc.contains w = true
  · rw [if_pos hc]
    exact h
  · rw [if_neg hc]
    refine List.Nodup.append h (List.nodup_singleton w) ?_
    intro a ha hb
    rw [List.mem_singleton] at hb
    subst hb
    exact hc ((contains_true_iff acc a).2 ha)

lemma mem_fieldValuesD (k : String) :
    ∀ (rs : List PyDict) (acc : List PyVal) (v : PyVal),
      v ∈ fieldValuesD k rs acc ↔ v ∈ acc ∨ ∃ d ∈ rs, dictGet d k = v ∧ truthy v = true := by
  intro rs
  induction rs with
  | nil =>
    intro acc v
    simp [fieldValuesD]
  | cons d t ih =>
    intro acc v
    by_cases h : truthy (dictGet d k) = true
    · have heq : fieldValuesD k (d :: t) acc = fieldValuesD k t (insertDistinct acc (dictGet d k)) := by
        simp [fieldValuesD, h]
      rw [heq, ih, mem_insertDistinct]
      constructor
      · rintro ((hv | rfl) | ⟨d2, hd2, hg, ht⟩)
        · exact Or.inl hv
        · exact Or.inr ⟨d, List.mem_cons_self d t, rfl, h⟩
        · exact Or.inr ⟨d2, List.mem_cons_of_mem d hd2, hg, ht⟩
      · rintro (hv | ⟨d2, hd2, hg, ht⟩)
        · exact Or.inl (Or.inl hv)
        · rcases List.mem_cons.1 hd2 with rfl | hd2t
          · exact Or.inl (Or.inr hg.symm)
          · exact Or.inr ⟨d2, hd2t, hg, ht⟩
    · have heq : fieldValuesD k (d :: t) acc = fieldValuesD k t acc := by
        simp [fieldValuesD, h]
      rw [heq, ih]
      constructor
      · rintro (hv | ⟨d2, hd2, hg, ht⟩)
        · exact Or.inl hv
        · exact Or.inr ⟨d2, List.mem_cons_of_mem d hd2, hg, ht⟩
      · rintro (hv | ⟨d2, hd2, hg, ht⟩)
        · exact Or.inl hv
        · rcases List.mem_cons.1 hd2 with rfl | hd2t
          · rw [← hg] at ht
            exact absurd ht h
          · exact Or.inr ⟨d2, hd2t, hg, ht⟩

lemma nodup_fieldValuesD (k : String) :
    ∀ (rs : List PyDict) (acc : List PyVal), acc.Nodup → (fieldValuesD k rs acc).Nodup := by
  intro rs
  induction rs with
  | nil =>
    intro acc h
    exact h
  | cons d t ih =>
    intro acc h
    by_cases hd : truthy (dictGet d k) = true
    · have heq : fieldValuesD k (d :: t) acc = fieldValuesD k t (insertDistinct acc (dictGet d k)) := by
        simp [fieldValuesD, hd]
      rw [heq]
      exact ih _ (nodup_insertDistinct acc _ h)
    · have heq : fieldValuesD k (d :: t) acc = fieldValuesD k t acc := by
        simp [fieldValuesD, hd]
      rw [heq]
      exact ih _ h

lemma one_lt_length_iff_pair (l : List PyVal) (h : l.Nodup) :
    1 < l.length ↔ ∃ a ∈ l, ∃ b ∈ l, a ≠ b := by
  match l with
  | [] => simp
  | [a] => simp
  | a :: b :: t =>
    simp only [List.length_cons]
    constructor
    · intro _
      refine ⟨a, List.mem_cons_self _ _, b, List.mem_cons_of_mem a (List.mem_cons_self _ _), ?_⟩
      intro hab
      subst hab
      rcases List.nodup_cons.1 h with ⟨hna, _⟩
      exact hna (List.mem_cons_self _ _)
    · intro _
      omega

lemma headOrNone_mem (l : List PyVal) (h : l ≠ []) : headOrNone l ∈ l := by
  cases l with
  | nil => exact absurd rfl h
  | cons v t => exact List.mem_cons_self _ _

lemma headOrNone_ne_none_iff (l : List PyVal) (ht : ∀ v ∈ l, truthy v = true) :
    headOrNone l ≠ PyVal.none ↔ l ≠ [] := by
  cases l with
  | nil => simp [headOrNone]
  | cons v t =>
    simp only [headOrNone]
    constructor
    · intro _ h
      cases h
    · intro _
      have hv := ht v (List.mem_cons_self _ _)
      intro hnone
      rw [hnone] at hv
      exact absurd hv (by decide)

/-- The behaviour of lines 107-133 on one field, for a list of well-formed
attempt records: presence iff a truthy attempt value, the final value's
origin, size-two iff disagreement, emptiness on all-null fields, and the
single-attempt case. -/
lemma reconcile_field_spec (k : String) (f : ExtractionRecord → PyVal)
    (hk : ∀ r, dictGet (toDict r) k = f r) (runs : List ExtractionRecord) :
    (headOrNone (fieldValuesD k (runs.map toDict) []) ≠ PyVal.none ↔
      ∃ r ∈ runs, truthy (f r) = true) ∧
    (headOrNone (fieldValuesD k (runs.map toDict) []) ≠ PyVal.none →
      ∃ r ∈ runs, f r = headOrNone (fieldValuesD k (runs.map toDict) [])) ∧
    (1 < (fieldValuesD k (runs.map toDict) []).length ↔ fieldDisagrees f runs) ∧
    ((∀ r ∈ runs, f r = PyVal.none) → fieldValuesD k (runs.map toDict) [] = []) ∧
    (runs.length = 1 → ¬ 1 < (fieldValuesD k (runs.map toDict) []).length) := by
  have hmem : ∀ v, v ∈ fieldValuesD k (runs.map toDict) [] ↔
      ∃ r ∈ runs, f r = v ∧ truthy v = true := by
    intro v
    rw [mem_fieldValuesD]
    simp only [List.not_mem_nil, false_or]
    constructor
    · rintro ⟨d, hd, hg, ht⟩
      obtain ⟨r, hr, rfl⟩ := List.mem_map.1 hd
      exact ⟨r, hr, (hk r).symm.trans hg, ht⟩
    · rintro ⟨r, hr, hg, ht⟩
      exact ⟨toDict r, List.mem_map_of_mem _ hr, (hk r).trans hg, ht⟩
  have htruthy : ∀ v ∈ fieldValuesD k (runs.map toDict) [], truthy v = true := by
    intro v hv
    obtain ⟨r, _, _, ht⟩ := (hmem v).1 hv
    exact ht
  have hnenil : fieldValuesD k (runs.map toDict) [] ≠ [] ↔ ∃ r ∈ runs, truthy (f r) = true := by
    constructor
    · intro h
      obtain ⟨v, hv⟩ := List.exists_mem_of_ne_nil _ h
      obtain ⟨r, hr, hg, ht⟩ := (hmem v).1 hv
      exact ⟨r, hr, hg.symm ▸ ht⟩
    · rintro ⟨r, hr, ht⟩
      intro h0
      have hm : f r ∈ fieldValuesD k (runs.map toDict) [] := (hmem (f r)).2 ⟨r, hr, rfl, ht⟩
      rw [h0] at hm
      exact List.not_mem_nil _ hm
  refine ⟨(headOrNone_ne_none_iff _ htruthy).trans hnenil, ?_, ?_, ?_, ?_⟩
  · intro h
    have hS : fieldValuesD k (runs.map toDict) [] ≠ [] := (headOrNone_ne_none_iff _ htruthy).1 h
    obtain ⟨r, hr, hg, _⟩ := (hmem _).1 (headOrNone_mem _ hS)
    exact ⟨r, hr, hg⟩
  · rw [one_lt_length_iff_pair _ (nodup_fieldValuesD k _ [] List.nodup_nil)]
    constructor
    · rintro ⟨a, ha, b, hb, hab⟩
      obtain ⟨r1, hr1, hg1, ht1⟩ := (hmem a).1 ha
      obtain ⟨r2, hr2, hg2, ht2⟩ := (hmem b).1 hb
      refine ⟨r1, hr1, r2, hr2, hg1.symm ▸ ht1, hg2.symm ▸ ht2, ?_⟩
      rw [hg1, hg2]
      exact hab
    · rintro ⟨r1, hr1, r2, hr2, ht1, ht2, hne12⟩
      exact ⟨f r1, (hmem _).2 ⟨r1, hr1, rfl, ht1⟩, f r2, (hmem _).2 ⟨r2, hr2, rfl, ht2⟩, hne12⟩
  · intro hall
    by_contra h0
    obtain ⟨v, hv⟩ := List.exists_mem_of_ne_nil _ h0
    obtain ⟨r, hr, hg, ht⟩ := (hmem v).1 hv
    have hvn : v = PyVal.none := hg.symm.trans (hall r hr)
    rw [hvn] at ht
    exact absurd ht (by decide)
  · intro h1
    obtain ⟨r, rfl⟩ := List.length_eq_one.1 h1
    by_cases ht : truthy (f r) = true
    · have : fieldValuesD k ([r].map toDict) [] = [f r] := by
        simp [fieldValuesD, hk r, ht, insertDistinct]
      rw [this]
      simp
    · have : fieldValuesD k ([r].map toDict) [] = [] := by
        simp [fieldValuesD, hk r, ht]
      rw [this]
      simp

lemma mem_conflict_labels (ds ts es cs : List PyVal) :
    ("Dates" ∈ (conflictEntries ds ts es cs).map Prod.fst ↔ 1 < ds.length) ∧
    ("Tails" ∈ (conflictEntries ds ts es cs).map Prod.fst ↔ 1 < ts.length) ∧
    ("Events" ∈ (conflictEntries ds ts es cs).map Prod.fst ↔ 1 < es.length) ∧
    ("Components" ∈ (conflictEntries ds ts es cs).map Prod.fst ↔ 1 < cs.length) := by
  unfold conflictEntries
  by_cases h1 : 1 < ds.length <;> by_cases h2 : 1 < ts.length <;>
    by_cases h3 : 1 < es.length <;> by_cases h4 : 1 < cs.length <;>
      simp [h1, h2, h3, h4]

/-! ## Helper lemmas: the batch loop under completed oracle invocations -/

lemma attemptLoop_completed (jloads : List Char → Option PyDict) :
    ∀ (b rest : List OracleOutcome), b.all isCompleted = true →
      attemptLoop jloads b.length (b ++ rest) =
        .ok (b.map (fun o => parse_invoice_with_claude jloads (stdoutOf o)), rest) := by
  intro b
  induction b with
  | nil =>
    intro rest _
    rfl
  | cons o t ih =>
    intro rest hall
    rw [List.all_cons, Bool.and_eq_true] at hall
    cases o with
    | timeout => exact absurd hall.1 (by decide)
    | completed rc out =>
      show attemptLoop jloads (t.length + 1) (OracleOutcome.completed rc out :: (t ++ rest)) = _
      simp only [attemptLoop, runSubprocess]
      rw [ih rest hall.2]
      rfl

lemma hasAllKeys_parse (jloads : List Char → Option PyDict)
    (hjl : ∀ s d, jloads s = some d → hasAllKeys d = true) (out : List Char) :
    hasAllKeys (parse_invoice_with_claude jloads out) = true := by
  unfold parse_invoice_with_claude
  cases hs : jsonSpan out with
  | none => rfl
  | some s =>
    show hasAllKeys (match jloads s with
      | some parsed => parsed
      | Option.none => nullRecord) = true
    cases hd : jloads s with
    | none => rfl
    | some d => exact hjl s d hd

lemma dictLookup_eq_ok (d : PyDict) (k : String) (h : hasKey d k = true) :
    dictLookup d k = .ok (dictGet d k) := by
  unfold hasKey at h
  unfold dictLookup dictGet
  cases hf : d.find? (fun kv => kv.1 == k) with
  | none => rw [hf] at h; cases h
  | some kv => rfl

lemma hasKey_of_hasAllKeys (d : PyDict) (h : hasAllKeys d = true) :
    hasKey d "date" = true ∧ hasKey d "tail_number" = true ∧
    hasKey d "event_type" = true ∧ hasKey d "component_description" = true := by
  unfold hasAllKeys at h
  simp only [Bool.and_eq_true] at h
  exact ⟨h.1.1.1, h.1.1.2, h.1.2, h.2⟩

lemma fieldValues_eq_ok (k : String) :
    ∀ (rs : List PyDict) (acc : List PyVal), (∀ d ∈ rs, hasKey d k = true) →
      fieldValues k rs acc = .ok (fieldValuesD k rs acc) := by
  intro rs
  induction rs with
  | nil =>
    intro acc _
    rfl
  | cons d t ih =>
    intro acc hall
    have hd : hasKey d k = true := hall d (List.mem_cons_self _ _)
    calc fieldValues k (d :: t) acc
        = fieldValues k t (if truthy (dictGet d k) then insertDistinct acc (dictGet d k) else acc) := by
          simp [fieldValues, dictLookup_eq_ok d k hd]
      _ = .ok (fieldValuesD k t
            (if truthy (dictGet d k) then insertDistinct acc (dictGet d k) else acc)) :=
          ih _ (fun d2 h2 => hall d2 (List.mem_cons_of_mem _ h2))
      _ = .ok (fieldValuesD k (d :: t) acc) := rfl

lemma processDocument_ok (jloads : List Char → Option PyDict)
    (hjl : ∀ s d, jloads s = some d → hasAllKeys d = true)
    (numAtt : Nat) (f : String) (b rest : List OracleOutcome)
    (hlen : b.length = numAtt) (hcomp : b.all isCompleted = true) :
    processDocument jloads numAtt f (b ++ rest) = .ok (docRowOf jloads f b, rest) := by
  subst hlen
  have hloop := attemptLoop_completed jloads b rest hcomp
  have hruns : ∀ d ∈ b.map (fun o => parse_invoice_with_claude jloads (stdoutOf o)),
      hasAllKeys d = true := by
    intro d hd
    obtain ⟨o, _, rfl⟩ := List.mem_map.1 hd
    exact hasAllKeys_parse jloads hjl _
  have e1 := fieldValues_eq_ok "date" _ []
    (fun d hd => (hasKey_of_hasAllKeys d (hruns d hd)).1)
  have e2 := fieldValues_eq_ok "tail_number" _ []
    (fun d hd => (hasKey_of_hasAllKeys d (hruns d hd)).2.1)
  have e3 := fieldValues_eq_ok "event_type" _ []
    (fun d hd => (hasKey_of_hasAllKeys d (hruns d hd)).2.2.1)
  have e4 := fieldValues_eq_ok "component_description" _ []
    (fun d hd => (hasKey_of_hasAllKeys d (hruns d hd)).2.2.2)
  simp only [processDocument, docRowOf, hloop, e1, e2, e3, e4]

lemma batchGo_blocks (jloads : List Char → Option PyDict)
    (hjl : ∀ s d, jloads s = some d → hasAllKeys d = true) (numAtt : Nat) :
    ∀ (fs : List String) (blocks : List (List OracleOutcome)) (csv : List (List String))
      (rest : List OracleOutcome), fs.length = blocks.length →
      (∀ bk ∈ blocks, bk.length = numAtt ∧ bk.all isCompleted = true) →
      batchGo jloads numAtt fs csv (concatBlocks blocks ++ rest) =
        (csv ++ (fs.zip blocks).map (fun p => docRowOf jloads p.1 p.2), Option.none) := by
  intro fs
  induction fs with
  | nil =>
    intro blocks csv rest hlen hall
    have hb : blocks = [] := List.eq_nil_of_length_eq_zero hlen.symm
    subst hb
    simp [batchGo]
  | cons f ft ih =>
    intro blocks csv rest hlen hall
    cases blocks with
    | nil => cases hlen
    | cons bk bt =>
      have hbk := hall bk (List.mem_cons_self _ _)
      have hpd := processDocument_ok jloads hjl numAtt f bk (concatBlocks bt ++ rest)
        hbk.1 hbk.2
      have hstep : batchGo jloads numAtt (f :: ft) csv (concatBlocks (bk :: bt) ++ rest) =
          batchGo jloads numAtt ft (csv ++ [docRowOf jloads f bk]) (concatBlocks bt ++ rest) := by
        show batchGo jloads numAtt (f :: ft) csv ((bk ++ concatBlocks bt) ++ rest) = _
        rw [List.append_assoc]
        simp only [batchGo, hpd]
      rw [hstep, ih bt (csv ++ [docRowOf jloads f bk]) rest (by simpa using hlen)
        (fun b2 h2 => hall b2 (List.mem_cons_of_mem _ h2))]
      simp [List.append_assoc]

/-! ## Theorems -/

/-- Claim C5: any component description containing "oil filter"
(case-insensitively) classifies as `Scheduled` regardless of the event
type; in particular rule 1 beats rule 3 on
`("100-HR INSPECTION", "oil filter")`. -/
theorem claim_C5 :
    (∀ e c : PyVal, containsSub (lowerL (pyOrEmptyChars c)) (strL "oil filter") = true →
      determine_reason_for_removal e c = "Scheduled") ∧
    determine_reason_for_removal (PyVal.str "100-HR INSPECTION") (PyVal.str "oil filter") = "Scheduled" := by
  refine ⟨?_, by decide⟩
  intro e c h
  simp only [determine_reason_for_removal, h]
  rfl

/-- Witness for C5 at a concrete input. -/
theorem claim_C5_witness :
    determine_reason_for_removal (PyVal.str "REPAIR") (PyVal.str "main oil filter") = "Scheduled" :=
  claim_C5.1 (PyVal.str "REPAIR") (PyVal.str "main oil filter") (by decide)

/-- Claim C6: for a component containing "air filter" but not "oil filter"
(case-insensitively), an event type containing "replacement" gives
`Failure`; otherwise "service" or "inspection" gives `Scheduled`; otherwise
(including a null event type) `Failure`. -/
theorem claim_C6 :
    (∀ e c : PyVal, containsSub (lowerL (pyOrEmptyChars c)) (strL "air filter") = true →
      containsSub (lowerL (pyOrEmptyChars c)) (strL "oil filter") = false →
      ((containsSub (lowerL (pyOrEmptyChars e)) (strL "replacement") = true →
          determine_reason_for_removal e c = "Failure") ∧
       (containsSub (lowerL (pyOrEmptyChars e)) (strL "replacement") = false →
        (containsSub (lowerL (pyOrEmptyChars e)) (strL "service") ||
         containsSub (lowerL (pyOrEmptyChars e)) (strL "inspection")) = true →
          determine_reason_for_removal e c = "Scheduled") ∧
       (containsSub (lowerL (pyOrEmptyChars e)) (strL "replacement") = false →
        containsSub (lowerL (pyOrEmptyChars e)) (strL "service") = false →
        containsSub (lowerL (pyOrEmptyChars e)) (strL "inspection") = false →
          determine_reason_for_removal e c = "Failure"))) ∧
    determine_reason_for_removal (PyVal.str "REPLACEMENT") (PyVal.str "air filter") = "Failure" ∧
    determine_reason_for_removal (PyVal.str "SERVICE") (PyVal.str "air filter") = "Scheduled" ∧
    determine_reason_for_removal PyVal.none (PyVal.str "air filter") = "Failure" := by
  refine ⟨?_, by decide, by decide, by decide⟩
  intro e c hair hoil
  refine ⟨?_, ?_, ?_⟩
  · intro hrep
    simp only [determine_reason_for_removal, hair, hoil, hrep]
    rfl
  · intro hrep hsi
    simp only [determine_reason_for_removal, hair, hoil, hrep, hsi]
    rfl
  · intro hrep hs hi
    simp only [determine_reason_for_removal, hair, hoil, hrep, hs, hi]
    rfl

/-- Witness for C6 at a concrete input. -/
theorem claim_C6_witness :
    determine_reason_for_removal (PyVal.str "ROUTINE SERVICE") (PyVal.str "engine air filter") = "Scheduled" :=
  (claim_C6.1 (PyVal.str "ROUTINE SERVICE") (PyVal.str "engine air filter")
    (by decide) (by decide)).2.1 (by decide) (by decide)

/-- Claim C7: the classifier is total (always exactly "Scheduled" or
"Failure", nulls treated as empty strings); when neither filter rule
matches the component, the result is `Scheduled` iff the event type
contains "inspection", "annual" or "service" (case-insensitively); with
the claim's two concrete instances. -/
theorem claim_C7 :
    (∀ e c : PyVal, determine_reason_for_removal e c = "Scheduled" ∨
      determine_reason_for_removal e c = "Failure") ∧
    (∀ e c : PyVal, containsSub (lowerL (pyOrEmptyChars c)) (strL "oil filter") = false →
      containsSub (lowerL (pyOrEmptyChars c)) (strL "air filter") = false →
      (determine_reason_for_removal e c = "Scheduled" ↔
        (containsSub (lowerL (pyOrEmptyChars e)) (strL "inspection") ||
         containsSub (lowerL (pyOrEmptyChars e)) (strL "annual") ||
         containsSub (lowerL (pyOrEmptyChars e)) (strL "service")) = true)) ∧
    determine_reason_for_removal (PyVal.str "ANNUAL") (PyVal.str "brake pad") = "Scheduled" ∧
    determine_reason_for_removal PyVal.none PyVal.none = "Failure" := by
  refine ⟨?_, ?_, by decide, by decide⟩
  · intro e c
    simp only [determine_reason_for_removal]
    split
    · exact Or.inl rfl
    · split
      · split
        · exact Or.inr rfl
        · split
          · exact Or.inl rfl
          · exact Or.inr rfl
      · split
        · exact Or.inl rfl
        · exact Or.inr rfl
  · intro e c hoil hair
    simp only [determine_reason_for_removal, hoil, hair]
    cases h : (containsSub (lowerL (pyOrEmptyChars e)) (strL "inspection") ||
        containsSub (lowerL (pyOrEmptyChars e)) (strL "annual") ||
        containsSub (lowerL (pyOrEmptyChars e)) (strL "service")) with
    | true => simp [h]
    | false => simp [h]

/-- Witness for C7 at a concrete input. -/
theorem claim_C7_witness :
    determine_reason_for_removal (PyVal.str "Pre-buy inspection") (PyVal.str "widget") = "Scheduled" :=
  (claim_C7.2.1 (PyVal.str "Pre-buy inspection") (PyVal.str "widget")
    (by decide) (by decide)).mpr (by decide)

/-- Claim C3 (code bug): on stdout `{"date": "01/02/2024"}` the parse
succeeds but the missing fields are *not* treated as null — the raw one-key
dict is returned unchanged, and the batch reconciler then raises
`KeyError: 'tail_number'` at line 108, contradicting the claim (and the
defensive `.get` access the same file uses in its debug branch, and the
four-field shape of the function's own failure record). -/
theorem claim_C3_bug :
    parse_invoice_with_claude jlC3 rawC3 = [("date", PyVal.str "01/02/2024")] ∧
    processDocument jlC3 1 "invoice1.txt" [OracleOutcome.completed 0 rawC3] =
      .error (PyErr.keyError "tail_number") := by decide

/-- Claim C1 counterexample: with documents `[A, B, C]` (one attempt each)
where B's oracle invocation times out, the uncaught `TimeoutExpired` aborts
the whole batch: the run ends with an error and the CSV holds only the
header and A's row — not the 4 rows (header + A, B, C) the claim requires,
and B's failure *does* surface as a batch abort. -/
theorem claim_C1_counterexample :
    process_invoices jlNone 1 ["A.txt", "B.txt", "C.txt"] [["stale row"]]
        [OracleOutcome.completed 0 [], OracleOutcome.timeout, OracleOutcome.completed 0 []] =
      ([headers, ["A.txt", "", "", "", "", "Failure", "", ""]], some PyErr.timeoutExpired) ∧
    ([headers, ["A.txt", "", "", "", "", "Failure", "", ""]].length ≠ 1 + 3) := by decide

/-- Claim C2 counterexample: an attempt whose `date` field holds the
non-null value `""` is dropped by the source's truthiness filter
(`if r["date"]`), so the final record's `date` is null even though an
attempt produced a non-null value for it — refuting the claimed
"non-null in the final record iff at least one attempt produced a non-null
value" at this input. -/
theorem claim_C2_counterexample :
    (reconcile [⟨PyVal.str "", PyVal.none, PyVal.none, PyVal.none⟩]).final_date = PyVal.none ∧
    (⟨PyVal.str "", PyVal.none, PyVal.none, PyVal.none⟩ : ExtractionRecord).date ≠ PyVal.none := by
  decide

/-- Claim C2 as amended: with "non-null" tightened to "truthy"
(non-null *and* non-empty — the source filters with `if r[k]`, Python
truthiness, so an empty-string value counts as absent): for every list of
N ≥ 1 attempt records, a field of the final record is non-null iff some
attempt holds a truthy value for it, and then the final value is one of the
attempts' values; `has_conflict` is true iff some field has two distinct
truthy values across attempts; the conflict detail labels exactly the
disagreeing fields; all-null attempts reconcile to the all-null,
conflict-free result; and a single attempt never conflicts. -/
theorem claim_C2_amended (runs : List ExtractionRecord) (hruns : runs ≠ []) :
    ((reconcile runs).final_date ≠ PyVal.none ↔ ∃ r ∈ runs, truthy r.date = true) ∧
    ((reconcile runs).final_tail ≠ PyVal.none ↔ ∃ r ∈ runs, truthy r.tail_number = true) ∧
    ((reconcile runs).final_event ≠ PyVal.none ↔ ∃ r ∈ runs, truthy r.event_type = true) ∧
    ((reconcile runs).final_component ≠ PyVal.none ↔
      ∃ r ∈ runs, truthy r.component_description = true) ∧
    ((reconcile runs).final_date ≠ PyVal.none →
      ∃ r ∈ runs, r.date = (reconcile runs).final_date) ∧
    ((reconcile runs).final_tail ≠ PyVal.none →
      ∃ r ∈ runs, r.tail_number = (reconcile runs).final_tail) ∧
    ((reconcile runs).final_event ≠ PyVal.none →
      ∃ r ∈ runs, r.event_type = (reconcile runs).final_event) ∧
    ((reconcile runs).final_component ≠ PyVal.none →
      ∃ r ∈ runs, r.component_description = (reconcile runs).final_component) ∧
    ((reconcile runs).has_conflict = true ↔
      (fieldDisagrees (fun r => r.date) runs ∨ fieldDisagrees (fun r => r.tail_number) runs ∨
       fieldDisagrees (fun r => r.event_type) runs ∨
       fieldDisagrees (fun r => r.component_description) runs)) ∧
    ("Dates" ∈ (reconcile runs).conflict_fields ↔ fieldDisagrees (fun r => r.date) runs) ∧
    ("Tails" ∈ (reconcile runs).conflict_fields ↔ fieldDisagrees (fun r => r.tail_number) runs) ∧
    ("Events" ∈ (reconcile runs).conflict_fields ↔ fieldDisagrees (fun r => r.event_type) runs) ∧
    ("Components" ∈ (reconcile runs).conflict_fields ↔
      fieldDisagrees (fun r => r.component_description) runs) ∧
    ((∀ r ∈ runs, r = nullExtraction) →
      (reconcile runs).final_date = PyVal.none ∧ (reconcile runs).final_tail = PyVal.none ∧
      (reconcile runs).final_event = PyVal.none ∧ (reconcile runs).final_component = PyVal.none ∧
      (reconcile runs).has_conflict = false) ∧
    (runs.length = 1 → (reconcile runs).has_conflict = false) := by
  have hd := reconcile_field_spec "date" (fun r => r.date) (fun r => rfl) runs
  have htl := reconcile_field_spec "tail_number" (fun r => r.tail_number) (fun r => rfl) runs
  have hev := reconcile_field_spec "event_type" (fun r => r.event_type) (fun r => rfl) runs
  have hcp := reconcile_field_spec "component_description"
    (fun r => r.component_description) (fun r => rfl) runs
  have hlbl := mem_conflict_labels (fieldValuesD "date" (runs.map toDict) [])
    (fieldValuesD "tail_number" (runs.map toDict) [])
    (fieldValuesD "event_type" (runs.map toDict) [])
    (fieldValuesD "component_description" (runs.map toDict) [])
  have c1 : (reconcile runs).final_date ≠ PyVal.none ↔ ∃ r ∈ runs, truthy r.date = true := by
    simp only [reconcile]
    exact hd.1
  have c2 : (reconcile runs).final_tail ≠ PyVal.none ↔ ∃ r ∈ runs, truthy r.tail_number = true := by
    simp only [reconcile]
    exact htl.1
  have c3 : (reconcile runs).final_event ≠ PyVal.none ↔ ∃ r ∈ runs, truthy r.event_type = true := by
    simp only [reconcile]
    exact hev.1
  have c4 : (reconcile runs).final_component ≠ PyVal.none ↔
      ∃ r ∈ runs, truthy r.component_description = true := by
    simp only [reconcile]
    exact hcp.1
  have c5 : (reconcile runs).final_date ≠ PyVal.none →
      ∃ r ∈ runs, r.date = (reconcile runs).final_date := by
    simp only [reconcile]
    exact hd.2.1
  have c6 : (reconcile runs).final_tail ≠ PyVal.none →
      ∃ r ∈ runs, r.tail_number = (reconcile runs).final_tail := by
    simp only [reconcile]
    exact htl.2.1
  have c7 : (reconcile runs).final_event ≠ PyVal.none →
      ∃ r ∈ runs, r.event_type = (reconcile runs).final_event := by
    simp only [reconcile]
    exact hev.2.1
  have c8 : (reconcile runs).final_component ≠ PyVal.none →
      ∃ r ∈ runs, r.component_description = (reconcile runs).final_component := by
    simp only [reconcile]
    exact hcp.2.1
  have c9 : (reconcile runs).has_conflict = true ↔
      (fieldDisagrees (fun r => r.date) runs ∨ fieldDisagrees (fun r => r.tail_number) runs ∨
       fieldDisagrees (fun r => r.event_type) runs ∨
       fieldDisagrees (fun r => r.component_description) runs) := by
    simp only [reconcile, Bool.or_eq_true, decide_eq_true_eq]
    rw [hd.2.2.1, htl.2.2.1, hev.2.2.1, hcp.2.2.1]
    constructor
    · rintro (((h | h) | h) | h)
      · exact Or.inl h
      · exact Or.inr (Or.inl h)
      · exact Or.inr (Or.inr (Or.inl h))
      · exact Or.inr (Or.inr (Or.inr h))
    · rintro (h | h | h | h)
      · exact Or.inl (Or.inl (Or.inl h))
      · exact Or.inl (Or.inl (Or.inr h))
      · exact Or.inl (Or.inr h)
      · exact Or.inr h
  have c10 : "Dates" ∈ (reconcile runs).conflict_fields ↔ fieldDisagrees (fun r => r.date) runs := by
    simp only [reconcile]
    rw [hlbl.1, hd.2.2.1]
  have c11 : "Tails" ∈ (reconcile runs).conflict_fields ↔
      fieldDisagrees (fun r => r.tail_number) runs := by
    simp only [reconcile]
    rw [hlbl.2.1, htl.2.2.1]
  have c12 : "Events" ∈ (reconcile runs).conflict_fields ↔
      fieldDisagrees (fun r => r.event_type) runs := by
    simp only [reconcile]
    rw [hlbl.2.2.1, hev.2.2.1]
  have c13 : "Components" ∈ (reconcile runs).conflict_fields ↔
      fieldDisagrees (fun r => r.component_description) runs := by
    simp only [reconcile]
    rw [hlbl.2.2.2, hcp.2.2.1]
  have c14 : (∀ r ∈ runs, r = nullExtraction) →
      (reconcile runs).final_date = PyVal.none ∧ (reconcile runs).final_tail = PyVal.none ∧
      (reconcile runs).final_event = PyVal.none ∧ (reconcile runs).final_component = PyVal.none ∧
      (reconcile runs).has_conflict = false := by
    intro hall
    have h1 := hd.2.2.2.1 (fun r hr => by rw [hall r hr]; rfl)
    have h2 := htl.2.2.2.1 (fun r hr => by rw [hall r hr]; rfl)
    have h3 := hev.2.2.2.1 (fun r hr => by rw [hall r hr]; rfl)
    have h4 := hcp.2.2.2.1 (fun r hr => by rw [hall r hr]; rfl)
    simp only [reconcile]
    rw [h1, h2, h3, h4]
    exact ⟨rfl, rfl, rfl, rfl, rfl⟩
  have c15 : runs.length = 1 → (reconcile runs).has_conflict = false := by
    intro h1
    have hda := hd.2.2.2.2 h1
    have htla := htl.2.2.2.2 h1
    have heva := hev.2.2.2.2 h1
    have hcpa := hcp.2.2.2.2 h1
    simp only [reconcile, Bool.or_eq_false_iff, decide_eq_false_iff_not]
    exact ⟨⟨⟨hda, htla⟩, heva⟩, hcpa⟩
  exact ⟨c1, c2, c3, c4, c5, c6, c7, c8, c9, c10, c11, c12, c13, c14, c15⟩

/-- Witness for the amended C2 at two attempts disagreeing on the date. -/
theorem claim_C2_amended_witness :
    (reconcile [⟨PyVal.str "a", PyVal.none, PyVal.none, PyVal.none⟩,
                ⟨PyVal.str "b", PyVal.none, PyVal.none, PyVal.none⟩]).has_conflict = true := by
  have h := claim_C2_amended [⟨PyVal.str "a", PyVal.none, PyVal.none, PyVal.none⟩,
      ⟨PyVal.str "b", PyVal.none, PyVal.none, PyVal.none⟩] (by simp)
  exact (h.2.2.2.2.2.2.2.2.1).mpr
    (Or.inl ⟨⟨PyVal.str "a", PyVal.none, PyVal.none, PyVal.none⟩, by simp,
      ⟨PyVal.str "b", PyVal.none, PyVal.none, PyVal.none⟩, by simp, by decide, by decide, by decide⟩)

/-- Claim C4: normalization is total — for every raw stdout it yields either
the all-null record or the successfully parsed object; when the raw text
has no `\x7b` or no `\x7d` at all it yields the all-null record; and when
the extracted span fails to parse (`jloads` returns `none`, the model of a
raised-and-caught `JSONDecodeError`) it yields the all-null record rather
than propagating the exception. -/
theorem claim_C4 (raw : List Char) (jloads : List Char → Option PyDict) :
    (parse_invoice_with_claude jloads raw = nullRecord ∨
      ∃ s d, jsonSpan raw = some s ∧ jloads s = some d ∧
        parse_invoice_with_claude jloads raw = d) ∧
    ((hasChar raw braceL = false ∨ hasChar raw braceR = false) →
      parse_invoice_with_claude jloads raw = nullRecord) ∧
    (∀ s, jsonSpan raw = some s → jloads s = Option.none →
      parse_invoice_with_claude jloads raw = nullRecord) := by
  refine ⟨?_, ?_, ?_⟩
  · cases hs : jsonSpan raw with
    | none => exact Or.inl (parse_eq_null_of_span_none raw jloads hs)
    | some s =>
      cases hd : jloads s with
      | none => exact Or.inl (by simp [parse_invoice_with_claude, hs, hd])
      | some d => exact Or.inr ⟨s, d, rfl, hd, by simp [parse_invoice_with_claude, hs, hd]⟩
  · intro h
    exact parse_eq_null_of_span_none raw jloads (jsonSpan_eq_none_of_missing_brace raw h)
  · intro s hs hd
    simp [parse_invoice_with_claude, hs, hd]

/-- Witness for C4 at a concrete input without braces. -/
theorem claim_C4_witness :
    parse_invoice_with_claude jlC3 (strL "no json here") = nullRecord :=
  (claim_C4 (strL "no json here") jlC3).2.1 (by decide)

/-- Claim C10: when a `\x7b` occurs in the raw text but the last `\x7d`
lies at or before the first `\x7b`, the span guard
`json_start != -1 and json_end > json_start` fails (on the stripped,
fence-removed response, which is a sublist of the raw text), so no span is
ever handed to the JSON parser and the all-null record is returned for
*every* parser. -/
theorem claim_C10 (raw : List Char)
    (h1 : pyFind raw braceL ≠ -1)
    (h2 : pyRfind raw braceR ≤ pyFind raw braceL) :
    jsonSpan raw = Option.none ∧
    ∀ jloads, parse_invoice_with_claude jloads raw = nullRecord := by
  have hab : afterBrace raw = false := afterBrace_false_of_last_close_le_first_open raw h1 h2
  have habn : afterBrace (normResponse raw) = false :=
    afterBrace_false_of_sublist (normResponse_sublist raw) hab
  have hsp := jsonSpan_eq_none_of_afterBrace raw habn
  exact ⟨hsp, fun jloads => parse_eq_null_of_span_none raw jloads hsp⟩

/-- Witness for C10 at the raw text `\x7da\x7b`. -/
theorem claim_C10_witness :
    jsonSpan (strL "\x7da\x7b") = Option.none ∧
    parse_invoice_with_claude jlNone (strL "\x7da\x7b") = nullRecord := by
  have h := claim_C10 (strL "\x7da\x7b") (by decide) (by decide)
  exact ⟨h.1, h.2 jlNone⟩

/-- Claim C1 as amended: an oracle invocation that *completes* — with any
exit code, including the non-zero exit of a missing binary — never disturbs
the batch: if its stdout yields no parseable span the attempt contributes
the all-null record; a document whose attempts all complete consumes
exactly its block of invocations and produces exactly one row; and a batch
whose invocations all complete yields one row per document, in order, with
no abort.  A *timeout*, however, raises an uncaught `TimeoutExpired` that
aborts the batch (see the counterexample). -/
theorem claim_C1_amended (jloads : List Char → Option PyDict)
    (hjl : ∀ s d, jloads s = some d → hasAllKeys d = true) (numAtt : Nat) :
    (∀ out : List Char, jsonSpan out = Option.none →
      parse_invoice_with_claude jloads out = nullRecord) ∧
    (∀ (f : String) (b rest : List OracleOutcome), b.length = numAtt →
      b.all isCompleted = true →
      processDocument jloads numAtt f (b ++ rest) = .ok (docRowOf jloads f b, rest)) ∧
    (∀ (fs : List String) (blocks : List (List OracleOutcome)) (csv : List (List String))
        (rest : List OracleOutcome), fs.length = blocks.length →
        (∀ bk ∈ blocks, bk.length = numAtt ∧ bk.all isCompleted = true) →
        batchGo jloads numAtt fs csv (concatBlocks blocks ++ rest) =
          (csv ++ (fs.zip blocks).map (fun p => docRowOf jloads p.1 p.2), Option.none)) :=
  ⟨fun out h => parse_eq_null_of_span_none out jloads h,
   fun f b rest h1 h2 => processDocument_ok jloads hjl numAtt f b rest h1 h2,
   batchGo_blocks jloads hjl numAtt⟩

/-- Witness for the amended C1: one document whose single attempt completes
with exit code 1 and empty stdout still yields its row and no abort. -/
theorem claim_C1_amended_witness :
    batchGo jlNone 1 ["A.txt"] [headers]
        (concatBlocks [[OracleOutcome.completed 1 []]] ++ []) =
      ([headers] ++ ((["A.txt"].zip [[OracleOutcome.completed 1 []]]).map
        (fun p => docRowOf jlNone p.1 p.2)), Option.none) :=
  (claim_C1_amended jlNone (fun s d h => by simp [jlNone] at h) 1).2.2 ["A.txt"]
    [[OracleOutcome.completed 1 []]] [headers] [] (by decide) (by decide)

/-- Claim C8: `initCsv` writes exactly the header row whatever the previous
file contents; processing the first K documents (in the discovered, sorted
order) appends exactly one row per document, so the CSV is the header
followed by K rows in processing order; each row has 8 columns, starts
with the filename truncated to 30 characters, and renders null extraction
fields as empty strings. -/
theorem claim_C8 (jloads : List Char → Option PyDict)
    (hjl : ∀ s d, jloads s = some d → hasAllKeys d = true) (numAtt : Nat)
    (listing : List String) (old : List (List String)) (K : Nat)
    (blocks : List (List OracleOutcome)) (rest : List OracleOutcome)
    (hK : ((discoverFiles listing).take K).length = blocks.length)
    (hKle : K ≤ (discoverFiles listing).length)
    (hb : ∀ bk ∈ blocks, bk.length = numAtt ∧ bk.all isCompleted = true) :
    initCsv old = [headers] ∧
    batchGo jloads numAtt ((discoverFiles listing).take K) [headers]
        (concatBlocks blocks ++ rest) =
      ([headers] ++ (((discoverFiles listing).take K).zip blocks).map
        (fun p => docRowOf jloads p.1 p.2), Option.none) ∧
    ((((discoverFiles listing).take K).zip blocks).map
        (fun p => docRowOf jloads p.1 p.2)).length = K ∧
    (∀ (f : String) (ds ts es cs : List PyVal),
      (mkRow f ds ts es cs).length = 8 ∧
      (mkRow f ds ts es cs).get? 0 = some (take30 f) ∧
      (mkRow f ds ts es cs).get? 1 = some (orEmptyS (headOrNone ds)) ∧
      (mkRow f ds ts es cs).get? 2 = some (orEmptyS (headOrNone ts)) ∧
      (mkRow f ds ts es cs).get? 3 = some (orEmptyS (headOrNone es)) ∧
      (mkRow f ds ts es cs).get? 4 = some (orEmptyS (headOrNone cs))) ∧
    orEmptyS PyVal.none = "" := by
  refine ⟨rfl, batchGo_blocks jloads hjl numAtt _ blocks [headers] rest hK hb, ?_, ?_, rfl⟩
  · rw [List.length_map, List.length_zip, ← hK, List.length_take]
    have := List.length_take K (discoverFiles listing)
    omega
  · intro f ds ts es cs
    refine ⟨by simp [mkRow], by simp [mkRow], by simp [mkRow], by simp [mkRow],
      by simp [mkRow], by simp [mkRow]⟩

/-- Witness for C8: one txt document, one completed attempt. -/
theorem claim_C8_witness :
    batchGo jlNone 1 ((discoverFiles ["b.txt", "a.txt"]).take 1) [headers]
        (concatBlocks [[OracleOutcome.completed 0 []]] ++ []) =
      ([headers] ++ (((discoverFiles ["b.txt", "a.txt"]).take 1).zip
          [[OracleOutcome.completed 0 []]]).map (fun p => docRowOf jlNone p.1 p.2),
       Option.none) :=
  (claim_C8 jlNone (fun s d h => by simp [jlNone] at h) 1 ["b.txt", "a.txt"] [["x"]] 1
    [[OracleOutcome.completed 0 []]] [] (by decide) (by decide) (by decide)).2.1

/-- Claim C9 as amended: the debug branch makes *two* oracle invocations —
a raw-display call whose stdout is only printed, then exactly one
extraction attempt whose stdout is normalized; it reports the parsed record
and its classification, and writes `singleFile.csv` as the six-column
header plus one row (filename untruncated, the four fields with empty
strings for nulls via `.get`, and the reason), with no conflict columns. -/
theorem claim_C9_amended (jloads : List Char → Option PyDict) (f : String)
    (rc1 rc2 : Int) (out1 out2 : List Char) (rest : List OracleOutcome) :
    debug_main jloads
        (OracleOutcome.completed rc1 out1 :: OracleOutcome.completed rc2 out2 :: rest) f =
      .ok ({ printedParsed := parse_invoice_with_claude jloads out2,
             printedReason := determine_reason_for_removal
               (dictGet (parse_invoice_with_claude jloads out2) "event_type")
               (dictGet (parse_invoice_with_claude jloads out2) "component_description"),
             csv := [debugHeaders,
               [f, getOrEmpty (parse_invoice_with_claude jloads out2) "date",
                getOrEmpty (parse_invoice_with_claude jloads out2) "tail_number",
                getOrEmpty (parse_invoice_with_claude jloads out2) "event_type",
                getOrEmpty (parse_invoice_with_claude jloads out2) "component_description",
                determine_reason_for_removal
                  (dictGet (parse_invoice_with_claude jloads out2) "event_type")
                  (dictGet (parse_invoice_with_claude jloads out2) "component_description")]] },
        rest) ∧
    debugUsed jloads
        (OracleOutcome.completed rc1 out1 :: OracleOutcome.completed rc2 out2 :: rest) f =
      some 2 := by
  have h1 : debug_main jloads
      (OracleOutcome.completed rc1 out1 :: OracleOutcome.completed rc2 out2 :: rest) f =
    .ok ({ printedParsed := parse_invoice_with_claude jloads out2,
           printedReason := determine_reason_for_removal
             (dictGet (parse_invoice_with_claude jloads out2) "event_type")
             (dictGet (parse_invoice_with_claude jloads out2) "component_description"),
           csv := [debugHeaders,
             [f, getOrEmpty (parse_invoice_with_claude jloads out2) "date",
              getOrEmpty (parse_invoice_with_claude jloads out2) "tail_number",
              getOrEmpty (parse_invoice_with_claude jloads out2) "event_type",
              getOrEmpty (parse_invoice_with_claude jloads out2) "component_description",
              determine_reason_for_removal
                (dictGet (parse_invoice_with_claude jloads out2) "event_type")
                (dictGet (parse_invoice_with_claude jloads out2) "component_description")]] },
      rest) := rfl
  refine ⟨h1, ?_⟩
  unfold debugUsed
  rw [h1]
  have h2 : (OracleOutcome.completed rc1 out1 :: OracleOutcome.completed rc2 out2 ::
      rest).length - rest.length = 2 := by
    simp only [List.length_cons]
    omega
  show some ((OracleOutcome.completed rc1 out1 :: OracleOutcome.completed rc2 out2 ::
      rest).length - rest.length) = some 2
  rw [h2]

/-- Claim C9 counterexample: a successful debug run consumes *two* scripted
oracle outcomes (the raw-display call of lines 210-211 plus the extraction
call inside `parse_invoice_with_claude`), not the single invocation the
claim states. -/
theorem claim_C9_counterexample :
    debugUsed jlNone
        [OracleOutcome.completed 0 [], OracleOutcome.completed 0 [], OracleOutcome.timeout]
        "f.txt" = some 2 ∧ (2 : Nat) ≠ 1 := by decide

end Invoice
